import Mathlib

/-!
Shallow embedding of the `kernel-sync` crate (sources: `src/interrupt.rs`,
`src/spinlock.rs`, `src/mutex.rs`) and verification of its specification.

The per-core interrupt bookkeeping (`push_off`/`pop_off`) operates on the
calling core's `Cpu` record (`CPUS[cpu_id()]`); the crate's own ownership
discipline ("Only the corresponding cpu will access it") means each record is
touched only by code running on that core, so executions on one core are
modelled by a state carrying the hardware interrupt-enable bit together with
that core's record.  `noff` is an `i32` in the source; it is modelled as
`Int` (faithful for nesting depths below 2^31, the only reachable ones).
-/

namespace KernelSync

/-- The hardware interrupt-enable bit together with the calling core's
`Cpu` record (`struct Cpu { noff: i32, interrupt_enable: bool }` in
`interrupt.rs`). -/
structure IntrState where
  /-- hardware interrupt-enable bit (`intr_get()` reads it, `intr_on()` /
  `intr_off()` set it) -/
  intr : Bool
  /-- field `Cpu.noff`: depth of `push_off()` nesting -/
  noff : Int
  /-- field `Cpu.interrupt_enable`: were interrupts enabled before `push_off()`? -/
  interrupt_enable : Bool
deriving DecidableEq, Repr

/-- Function `push_off()` from `interrupt.rs`:
```
let old = intr_get();
intr_off();
let mut cpu = mycpu();
if cpu.noff == 0 { cpu.interrupt_enable = old; }
cpu.noff += 1;
``` -/
def push_off (s : IntrState) : IntrState :=
  let old := s.intr
  -- intr_off()
  let s1 : IntrState := { s with intr := false }
  let s2 : IntrState :=
    if s1.noff = 0 then { s1 with interrupt_enable := old } else s1
  { s2 with noff := s2.noff + 1 }

/-- Observable events of `pop_off()`, in execution order: releasing the
`RefMut` borrow of the core record (`drop(cpu)`) and re-enabling hardware
interrupts (`intr_on()`). -/
inductive PopEv where
  | dropCpu : PopEv
  | intrOn : PopEv
deriving DecidableEq, Repr

/-- Function `pop_off()` from `interrupt.rs`, with its event trace:
```
let mut cpu = mycpu();
if intr_get() || cpu.noff < 1 { panic!("pop_off"); }
cpu.noff -= 1;
let should_enable = cpu.noff == 0 && cpu.interrupt_enable;
drop(cpu);
// NOTICE: intr_on() may lead to an immediate interrupt, so we *MUST* drop(cpu) in advance.
if should_enable { intr_on(); }
```
`none` models the panic. -/
def pop_off_run (s : IntrState) : Option (IntrState × List PopEv) :=
  if s.intr || s.noff < 1 then none
  else
    let noff' := s.noff - 1
    let should_enable := noff' = 0 && s.interrupt_enable
    -- drop(cpu) happens here, before any intr_on()
    if should_enable then
      some ({ s with noff := noff', intr := true }, [PopEv.dropCpu, PopEv.intrOn])
    else
      some ({ s with noff := noff' }, [PopEv.dropCpu])

/-- Function `pop_off()` as a state transformer (projection of `pop_off_run`). -/
def pop_off (s : IntrState) : Option IntrState :=
  (pop_off_run s).map Prod.fst

/-- One call in a `push_off`/`pop_off` call sequence. -/
inductive ICall where
  | push : ICall
  | pop : ICall
deriving DecidableEq, Repr

/-- Run a sequence of `push_off`/`pop_off` calls on one core; `none` when
some `pop_off` panics. -/
def runCalls : List ICall → IntrState → Option IntrState
  | [], s => some s
  | ICall.push :: rest, s => runCalls rest (push_off s)
  | ICall.pop :: rest, s =>
    match pop_off s with
    | none => none
    | some s' => runCalls rest s'

/-- A call sequence is matched (balanced) starting from nesting depth `n`:
every `pop` has an outstanding `push` and the sequence ends at depth 0. -/
def matchedFrom : Int → List ICall → Bool
  | n, [] => n = 0
  | n, ICall.push :: rest => matchedFrom (n + 1) rest
  | n, ICall.pop :: rest => 1 ≤ n && matchedFrom (n - 1) rest

/-- Invariant of a one-core execution that started at depth 0 with hardware
interrupt state `init`: at depth 0 the interrupt bit equals `init`; at
positive depth interrupts are masked and the saved flag equals `init`. -/
def IntrInv (init : Bool) (s : IntrState) : Prop :=
  (s.noff = 0 → s.intr = init) ∧
  (0 < s.noff → s.intr = false ∧ s.interrupt_enable = init)

lemma push_off_eq (s : IntrState) :
    push_off s =
      ⟨false, s.noff + 1,
        if s.noff = 0 then s.intr else s.interrupt_enable⟩ := by
  unfold push_off
  by_cases h : s.noff = 0 <;> simp [h]

lemma pop_off_run_eq_some (s : IntrState) (h1 : s.intr = false)
    (h2 : 1 ≤ s.noff) :
    pop_off_run s =
      some (⟨decide (s.noff - 1 = 0) && s.interrupt_enable, s.noff - 1,
              s.interrupt_enable⟩,
        PopEv.dropCpu ::
          (if decide (s.noff - 1 = 0) && s.interrupt_enable then
            [PopEv.intrOn] else [])) := by
  have hnp : ¬ (s.intr || decide (s.noff < 1)) = true := by
    simp [h1]; omega
  unfold pop_off_run
  rw [if_neg hnp]
  by_cases hse : (decide (s.noff - 1 = 0) && s.interrupt_enable) = true
  · have hse' := hse
    rw [Bool.and_eq_true, decide_eq_true_eq] at hse'
    rw [if_pos (by simpa using hse')]
    simp [hse, hse'.1, hse'.2]
  · have hse' : ¬ (s.noff - 1 = 0 ∧ s.interrupt_enable = true) := by
      intro hc
      exact hse (by rw [Bool.and_eq_true, decide_eq_true_eq]; exact hc)
    rw [if_neg (by simpa using hse')]
    have hf : (decide (s.noff - 1 = 0) && s.interrupt_enable) = false := by
      simpa using hse
    simp [hf, h1]

lemma pop_off_eq_some (s : IntrState) (h1 : s.intr = false)
    (h2 : 1 ≤ s.noff) :
    pop_off s =
      some ⟨decide (s.noff - 1 = 0) && s.interrupt_enable, s.noff - 1,
        s.interrupt_enable⟩ := by
  unfold pop_off
  rw [pop_off_run_eq_some s h1 h2]
  rfl

lemma intrInv_push {init : Bool} {s : IntrState} (h : IntrInv init s)
    (hn : 0 ≤ s.noff) : IntrInv init (push_off s) := by
  rcases h with ⟨h0, hpos⟩
  rw [push_off_eq]
  constructor
  · intro hc; simp at hc; omega
  · intro _
    refine ⟨rfl, ?_⟩
    by_cases hz : s.noff = 0
    · simp [hz, h0 hz]
    · have : 0 < s.noff := by omega
      simp [hz, (hpos this).2]

lemma intrInv_pop {init : Bool} {s : IntrState} (h : IntrInv init s)
    (hn : 1 ≤ s.noff) :
    ∃ s', pop_off s = some s' ∧ s'.noff = s.noff - 1 ∧ IntrInv init s' := by
  rcases h with ⟨_, hpos⟩
  have hmask := hpos (by omega)
  refine ⟨_, pop_off_eq_some s hmask.1 hn, rfl, ?_, ?_⟩
  · intro hz
    simp only at hz ⊢
    simp [hz, hmask.2]
  · intro hp
    simp only at hp ⊢
    have : ¬ (s.noff - 1 = 0) := by omega
    simp [this, hmask.2]

lemma runCalls_matched {init : Bool} :
    ∀ (calls : List ICall) (s : IntrState), IntrInv init s →
      0 ≤ s.noff → matchedFrom s.noff calls = true →
      ∃ s', runCalls calls s = some s' ∧ s'.noff = 0 ∧ s'.intr = init := by
  intro calls
  induction calls with
  | nil =>
    intro s hinv _ hm
    simp only [matchedFrom, decide_eq_true_eq] at hm
    exact ⟨s, rfl, hm, hinv.1 hm⟩
  | cons c rest ih =>
    intro s hinv hn hm
    cases c with
    | push =>
      simp only [matchedFrom] at hm
      have hinv' := intrInv_push hinv hn
      have hn' : (push_off s).noff = s.noff + 1 := by
        unfold push_off
        by_cases h0 : s.noff = 0 <;> simp [h0]
      have := ih (push_off s) hinv' (by omega) (by rw [hn']; exact hm)
      simpa [runCalls] using this
    | pop =>
      simp only [matchedFrom, Bool.and_eq_true, decide_eq_true_eq] at hm
      obtain ⟨s', hpop, hnoff, hinv'⟩ := intrInv_pop hinv hm.1
      have := ih s' hinv' (by omega) (by rw [hnoff]; exact hm.2)
      simpa [runCalls, hpop] using this

/-- C2: for every matched `push_off`/`pop_off` call sequence run on one core
that starts at nesting depth 0, the run completes without panicking and the
hardware interrupt-enable state at the end equals the state at the start,
whatever nesting depth was reached in between. -/
theorem matched_calls_restore_intr (calls : List ICall) (s : IntrState)
    (hdepth : s.noff = 0) (hmatched : matchedFrom 0 calls = true) :
    ∃ s', runCalls calls s = some s' ∧ s'.intr = s.intr := by
  have hinv : IntrInv s.intr s := by
    constructor
    · intro _; rfl
    · intro h; omega
  obtain ⟨s', hrun, _, hintr⟩ :=
    runCalls_matched calls s hinv (by omega) (by rw [hdepth]; exact hmatched)
  exact ⟨s', hrun, hintr⟩

/-- Witness for C2 at the concrete sequence push, push, pop, pop starting
with interrupts enabled. -/
theorem matched_calls_restore_intr_witness :
    (⟨true, 0, false⟩ : IntrState).noff = 0 ∧
      matchedFrom 0 [ICall.push, ICall.push, ICall.pop, ICall.pop] = true ∧
      ∃ s', runCalls [ICall.push, ICall.push, ICall.pop, ICall.pop]
          ⟨true, 0, false⟩ = some s' ∧ s'.intr = (⟨true, 0, false⟩ : IntrState).intr :=
  ⟨rfl, by decide,
    matched_calls_restore_intr [ICall.push, ICall.push, ICall.pop, ICall.pop]
      ⟨true, 0, false⟩ rfl (by decide)⟩

lemma pop_off_run_eq_none (s : IntrState) :
    pop_off_run s = none ↔ (s.intr = true ∨ s.noff < 1) := by
  unfold pop_off_run
  by_cases h : (s.intr || decide (s.noff < 1)) = true
  · simp only [if_pos h, true_iff]
    simpa using h
  · rw [if_neg h]
    have h' : ¬ (s.intr = true ∨ s.noff < 1) := by simpa using h
    by_cases hse : (s.noff - 1 = 0 ∧ s.interrupt_enable = true)
    · simp [hse.1, hse.2, h']
    · constructor
      · intro hc
        by_cases hz : s.noff - 1 = 0 <;> by_cases hb : s.interrupt_enable = true <;>
          simp_all
      · intro hc; exact absurd hc h'

/-- C3: `pop_off()` panics exactly when hardware interrupts are enabled or
the core's nesting depth is below 1; otherwise it decrements the depth,
re-enables hardware interrupts exactly when the new depth is 0 and the saved
flag is true, leaves the saved flag untouched, and any `intr_on()` event
occurs strictly after the `drop(cpu)` event that releases the core record. -/
theorem pop_off_spec (s : IntrState) :
    (pop_off_run s = none ↔ (s.intr = true ∨ s.noff < 1)) ∧
    (∀ s' evs, pop_off_run s = some (s', evs) →
      s'.noff = s.noff - 1 ∧
      (s'.intr = true ↔ (s'.noff = 0 ∧ s.interrupt_enable = true)) ∧
      s'.interrupt_enable = s.interrupt_enable ∧
      (∀ k, evs.get? k = some PopEv.intrOn →
        ∃ j, j < k ∧ evs.get? j = some PopEv.dropCpu)) := by
  refine ⟨pop_off_run_eq_none s, ?_⟩
  intro s' evs hrun
  by_cases hp : (s.intr = true ∨ s.noff < 1)
  · rw [(pop_off_run_eq_none s).mpr hp] at hrun
    exact absurd hrun (by simp)
  · push_neg at hp
    have h1 : s.intr = false := by
      cases hb : s.intr
      · rfl
      · exact absurd hb hp.1
    have h2 : 1 ≤ s.noff := hp.2
    rw [pop_off_run_eq_some s h1 h2] at hrun
    injection hrun with hrun
    injection hrun with hs' hevs
    refine ⟨by rw [← hs'], ?_, by rw [← hs'], ?_⟩
    · rw [← hs']
      simp only [Bool.and_eq_true, decide_eq_true_eq]
    · intro k hk
      rw [← hevs] at hk
      match k with
      | 0 => simp at hk
      | Nat.succ n =>
        refine ⟨0, Nat.succ_pos n, ?_⟩
        rw [← hevs]
        rfl

/-- Witness for C3 at the state: interrupts masked, depth 1, saved flag
true; `pop_off` succeeds, reaches depth 0 and re-enables interrupts after
dropping the core record. -/
theorem pop_off_spec_witness :
    pop_off_run ⟨false, 1, true⟩ =
      some (⟨true, 0, true⟩, [PopEv.dropCpu, PopEv.intrOn]) ∧
    ((⟨true, 0, true⟩ : IntrState).noff = (⟨false, 1, true⟩ : IntrState).noff - 1 ∧
      ((⟨true, 0, true⟩ : IntrState).intr = true ↔
        ((⟨true, 0, true⟩ : IntrState).noff = 0 ∧
          (⟨false, 1, true⟩ : IntrState).interrupt_enable = true)) ∧
      (⟨true, 0, true⟩ : IntrState).interrupt_enable =
        (⟨false, 1, true⟩ : IntrState).interrupt_enable ∧
      (∀ k, ([PopEv.dropCpu, PopEv.intrOn].get? k) = some PopEv.intrOn →
        ∃ j, j < k ∧ ([PopEv.dropCpu, PopEv.intrOn].get? j) = some PopEv.dropCpu)) :=
  ⟨by decide, (pop_off_spec ⟨false, 1, true⟩).2 ⟨true, 0, true⟩
    [PopEv.dropCpu, PopEv.intrOn] (by decide)⟩

/-- C9: the saved flag `interrupt_enable` is written by `push_off` exactly
when the depth is 0 (the 0→1 transition), receiving the pre-call interrupt
state; `pop_off` never modifies it; and when `pop_off` runs at a depth other
than 1 (so the depth does not transition 1→0) the saved flag has no
influence on the resulting hardware interrupt state. -/
theorem interrupt_enable_discipline (s : IntrState) (b : Bool) :
    ((push_off s).interrupt_enable =
      if s.noff = 0 then s.intr else s.interrupt_enable) ∧
    ((push_off s).noff = s.noff + 1) ∧
    (∀ s', pop_off s = some s' → s'.interrupt_enable = s.interrupt_enable) ∧
    (s.noff ≠ 1 →
      (pop_off { s with interrupt_enable := b }).map IntrState.intr =
        (pop_off s).map IntrState.intr) := by
  refine ⟨by rw [push_off_eq], by rw [push_off_eq], ?_, ?_⟩
  · intro s' hpop
    by_cases hp : (s.intr = true ∨ s.noff < 1)
    · have : pop_off s = none := by
        unfold pop_off
        rw [(pop_off_run_eq_none s).mpr hp]
        rfl
      rw [this] at hpop
      exact absurd hpop (by simp)
    · push_neg at hp
      have h1 : s.intr = false := by
        cases hb : s.intr
        · rfl
        · exact absurd hb hp.1
      rw [pop_off_eq_some s h1 hp.2] at hpop
      injection hpop with hpop
      rw [← hpop]
  · intro hne
    by_cases hp : (s.intr = true ∨ s.noff < 1)
    · have hp' : ((⟨s.intr, s.noff, b⟩ : IntrState).intr = true ∨
          (⟨s.intr, s.noff, b⟩ : IntrState).noff < 1) := hp
      have e1 : pop_off { s with interrupt_enable := b } = none := by
        unfold pop_off
        rw [(pop_off_run_eq_none _).mpr hp']
        rfl
      have e2 : pop_off s = none := by
        unfold pop_off
        rw [(pop_off_run_eq_none s).mpr hp]
        rfl
      rw [e1, e2]
    · push_neg at hp
      have h1 : s.intr = false := by
        cases hb : s.intr
        · rfl
        · exact absurd hb hp.1
      rw [pop_off_eq_some s h1 hp.2,
        pop_off_eq_some { s with interrupt_enable := b } h1 hp.2]
      have hz : ¬ (s.noff - 1 = 0) := by
        have := hp.2
        omega
      simp [hz]

/-- Witness for C9 at interrupts masked, depth 2, saved flag true. -/
theorem interrupt_enable_discipline_witness :
    ((push_off ⟨false, 2, true⟩).interrupt_enable =
      if (⟨false, 2, true⟩ : IntrState).noff = 0 then
        (⟨false, 2, true⟩ : IntrState).intr
      else (⟨false, 2, true⟩ : IntrState).interrupt_enable) ∧
    ((push_off ⟨false, 2, true⟩).noff = (⟨false, 2, true⟩ : IntrState).noff + 1) ∧
    ((⟨false, 1, true⟩ : IntrState).interrupt_enable =
      (⟨false, 2, true⟩ : IntrState).interrupt_enable) ∧
    ((pop_off { (⟨false, 2, true⟩ : IntrState) with interrupt_enable := false }).map
        IntrState.intr =
      (pop_off ⟨false, 2, true⟩).map IntrState.intr) := by
  obtain ⟨h1, h2, h3, h4⟩ := interrupt_enable_discipline ⟨false, 2, true⟩ false
  exact ⟨h1, h2, h3 ⟨false, 1, true⟩ (by decide), h4 (by decide)⟩

/-- Modelled from the spec: `crate::enable_intr()`, called at the top of
`SpinLock::lock`, is not among the available sources (`lib.rs` neither
defines nor re-exports it); the spec states that `lock()` "calls
`push_off()` (masking interrupts, nestable)". -/
def enable_intr (s : IntrState) : IntrState := push_off s

/-- Modelled from the spec: `crate::disable_intr()`, called by
`SpinLockGuard::drop`, is not among the available sources; the spec states
that guard release "calls `pop_off()` to possibly restore interrupts". -/
def disable_intr (s : IntrState) : Option IntrState := pop_off s

/-- Observable events of `SpinLock::lock`, in execution order.  Each flag
access records the value of the shared `locked` flag it observed (other
cores may write the flag between accesses, so observations are supplied by
a schedule). -/
inductive LockEv where
  /-- the `crate::enable_intr()` call (`push_off`) at the top of `lock` -/
  | pushOffEv : LockEv
  /-- `compare_exchange_weak(false, true, Acquire, Relaxed)`; succeeds
  exactly when it observed `false` -/
  | casAcquire (observed : Bool) : LockEv
  /-- `self.locked.load(Relaxed)` inside `is_locked()` -/
  | readRelaxed (observed : Bool) : LockEv
  /-- the `SpinLockGuard` is constructed and returned -/
  | guardReturned : LockEv
deriving DecidableEq, Repr

/-- Position inside the nested spin loops of `SpinLock::lock`: about to run
the outer loop's compare-and-swap, or inside the inner `while is_locked()`
loop. -/
inductive SpinMode where
  | casMode : SpinMode
  | readMode : SpinMode
deriving DecidableEq, Repr

/-- The spin loop of `SpinLock::lock`:
```
while self.locked.compare_exchange_weak(false, true, Acquire, Relaxed).is_err() {
    while self.is_locked() {}
}
```
run against a schedule listing the flag value observed by each atomic
access in order.  The compare-and-swap succeeds exactly when it observes
`false` (a spurious failure of the weak compare-and-swap is modelled as an
interleaved observation of `true`).  `none` means the schedule ran out with
the loop still spinning (no guard is ever returned without a successful
claim). -/
def lockLoop : SpinMode → List Bool → Option (List LockEv)
  | _, [] => none
  | SpinMode.casMode, v :: rest =>
    if v then (lockLoop SpinMode.readMode rest).map (LockEv.casAcquire true :: ·)
    else some [LockEv.casAcquire false, LockEv.guardReturned]
  | SpinMode.readMode, v :: rest =>
    if v then (lockLoop SpinMode.readMode rest).map (LockEv.readRelaxed true :: ·)
    else (lockLoop SpinMode.casMode rest).map (LockEv.readRelaxed false :: ·)

/-- Function `SpinLock::lock` from `spinlock.rs`: first
`crate::enable_intr()` (see `enable_intr`), then the compare-and-swap spin
loop; on termination the guard is returned. -/
def spinLock_lock (s : IntrState) (sched : List Bool) :
    Option (IntrState × List LockEv) :=
  let s' := enable_intr s
  (lockLoop SpinMode.casMode sched).map (fun evs => (s', LockEv.pushOffEv :: evs))

/-- Shape of the failed part of a `SpinLock::lock` trace: zero or more
blocks, each a failed compare-and-swap (observing locked) followed by
relaxed reads observing locked until one observes unlocked. -/
inductive SpinBody : List LockEv → Prop
  | nil : SpinBody []
  | block (ts rest : List LockEv)
      (hts : ∀ e ∈ ts, e = LockEv.readRelaxed true) (hr : SpinBody rest) :
      SpinBody (LockEv.casAcquire true :: ts ++ LockEv.readRelaxed false :: rest)

lemma lockLoop_shape :
    ∀ (sched : List Bool),
      (∀ evs, lockLoop SpinMode.casMode sched = some evs →
        ∃ body, evs = body ++ [LockEv.casAcquire false, LockEv.guardReturned] ∧
          SpinBody body) ∧
      (∀ evs, lockLoop SpinMode.readMode sched = some evs →
        ∃ ts body, (∀ e ∈ ts, e = LockEv.readRelaxed true) ∧
          evs = ts ++ LockEv.readRelaxed false :: body ++
            [LockEv.casAcquire false, LockEv.guardReturned] ∧
          SpinBody body) := by
  intro sched
  induction sched with
  | nil => exact ⟨fun evs h => by simp [lockLoop] at h,
      fun evs h => by simp [lockLoop] at h⟩
  | cons v rest ih =>
    obtain ⟨ihCas, ihRead⟩ := ih
    constructor
    · intro evs h
      by_cases hv : v = true
      · rw [hv] at h
        simp only [lockLoop, if_true, Option.map_eq_some'] at h
        obtain ⟨evs', hrun, hmap⟩ := h
        obtain ⟨ts, body, hts, hevs', hbody⟩ := ihRead evs' hrun
        refine ⟨LockEv.casAcquire true :: ts ++ LockEv.readRelaxed false :: body,
          ?_, SpinBody.block ts body hts hbody⟩
        rw [← hmap, hevs']
        simp
      · have hv' : v = false := by simpa using hv
        rw [hv'] at h
        simp only [lockLoop, if_false, Option.some_inj, Bool.false_eq_true] at h
        exact ⟨[], h.symm, SpinBody.nil⟩
    · intro evs h
      by_cases hv : v = true
      · rw [hv] at h
        simp only [lockLoop, if_true, Option.map_eq_some'] at h
        obtain ⟨evs', hrun, hmap⟩ := h
        obtain ⟨ts, body, hts, hevs', hbody⟩ := ihRead evs' hrun
        refine ⟨LockEv.readRelaxed true :: ts, body, ?_, ?_, hbody⟩
        · intro e he
          rcases List.mem_cons.mp he with he | he
          · exact he
          · exact hts e he
        · rw [← hmap, hevs']
          simp
      · have hv' : v = false := by simpa using hv
        rw [hv'] at h
        simp only [lockLoop, if_false, Option.map_eq_some',
          Bool.false_eq_true] at h
        obtain ⟨evs', hrun, hmap⟩ := h
        obtain ⟨body, hevs', hbody⟩ := ihCas evs' hrun
        refine ⟨[], body, by simp, ?_, hbody⟩
        rw [← hmap, hevs']
        simp

/-- C1: whenever `SpinLock::lock` returns a guard, its trace starts with the
`push_off` call (interrupt masking, whose nestable accounting is `push_off`
itself), followed by zero or more failed-acquisition blocks — each a failed
acquire-ordered compare-and-swap followed by relaxed reads of the flag that
observe locked until one observes unlocked — and ends with the successful
acquire-ordered compare-and-swap immediately followed by the guard return;
the interrupt state is the `push_off` of the initial one.  A guard is
returned exactly on a successful claim: a schedule on which no
compare-and-swap observes unlocked yields no guard. -/
theorem spinLock_lock_spec (s : IntrState) (sched : List Bool)
    (s' : IntrState) (tr : List LockEv)
    (h : spinLock_lock s sched = some (s', tr)) :
    s' = push_off s ∧
      ∃ body, tr = LockEv.pushOffEv :: body ++
          [LockEv.casAcquire false, LockEv.guardReturned] ∧
        SpinBody body := by
  unfold spinLock_lock at h
  simp only [Option.map_eq_some'] at h
  obtain ⟨evs, hrun, hmap⟩ := h
  obtain ⟨body, hevs, hbody⟩ := (lockLoop_shape sched).1 evs hrun
  injection hmap with hmap1 hmap2
  refine ⟨hmap1.symm, body, ?_, hbody⟩
  rw [← hmap2, hevs]
  simp

/-- Witness for C1 on the schedule locked, locked, unlocked, unlocked: one
failed attempt with one spin-read block, then a successful claim. -/
theorem spinLock_lock_spec_witness :
    spinLock_lock ⟨true, 0, false⟩ [true, true, false, false] =
      some (⟨false, 1, true⟩,
        [LockEv.pushOffEv, LockEv.casAcquire true, LockEv.readRelaxed true,
         LockEv.readRelaxed false, LockEv.casAcquire false,
         LockEv.guardReturned]) ∧
    ((⟨false, 1, true⟩ : IntrState) = push_off ⟨true, 0, false⟩ ∧
      ∃ body,
        [LockEv.pushOffEv, LockEv.casAcquire true, LockEv.readRelaxed true,
         LockEv.readRelaxed false, LockEv.casAcquire false,
         LockEv.guardReturned] = LockEv.pushOffEv :: body ++
          [LockEv.casAcquire false, LockEv.guardReturned] ∧
        SpinBody body) :=
  ⟨by decide,
    spinLock_lock_spec ⟨true, 0, false⟩ [true, true, false, false]
      ⟨false, 1, true⟩ _ (by decide)⟩

/-- Result of `SpinLock::try_lock`: the flag value after the attempt,
whether a guard was produced, and the interrupt state after the attempt. -/
structure TryLockResult where
  locked : Bool
  acquired : Bool
  intrState : IntrState
deriving DecidableEq, Repr

/-- Function `SpinLock::try_lock` from `spinlock.rs`:
```
if self.locked.compare_exchange(false, true, Acquire, Relaxed).is_ok() {
    Some(SpinLockGuard { .. })
} else {
    None
}
```
A single compare-and-swap on the flag; its body contains no
interrupt-related call, so the interrupt state is passed through
unchanged. -/
def spinLock_try_lock (locked : Bool) (s : IntrState) : TryLockResult :=
  if locked = false then ⟨true, true, s⟩ else ⟨locked, false, s⟩

/-- Observable events of `SpinLockGuard::drop`, in execution order. -/
inductive DropEv where
  /-- `self.lock.store(false, Ordering::Release)` -/
  | storeReleaseFalse : DropEv
  /-- the `crate::disable_intr()` call (`pop_off`) -/
  | popOffEv : DropEv
deriving DecidableEq, Repr

/-- Function `Drop for SpinLockGuard::drop` from `spinlock.rs`:
```
self.lock.store(false, Ordering::Release);
unsafe { crate::disable_intr(); }
```
(`disable_intr` modelled from the spec as `pop_off`, see `disable_intr`).
Returns the flag value after the drop, the interrupt state (`none` when
`pop_off` panics) and the events in execution order. -/
def spinLockGuard_drop (locked : Bool) (s : IntrState) :
    Bool × Option IntrState × List DropEv :=
  let locked' := false
  let s' := disable_intr s
  (locked', s', [DropEv.storeReleaseFalse, DropEv.popOffEv])

/-- C7: dropping a `SpinLockGuard` always leaves the flag `false` (the
release-ordered store), and its interrupt effect is exactly `pop_off`,
performed after the store: in the drop's event trace the release store
precedes the `pop_off` call.  The before-drop flag value `locked` is
arbitrary: the release happens on every exit path of the critical
section. -/
theorem spinLockGuard_drop_spec (locked : Bool) (s : IntrState) :
    (spinLockGuard_drop locked s).1 = false ∧
    (spinLockGuard_drop locked s).2.1 = pop_off s ∧
    DropEv.storeReleaseFalse ∈ (spinLockGuard_drop locked s).2.2 ∧
    DropEv.popOffEv ∈ (spinLockGuard_drop locked s).2.2 ∧
    List.indexOf DropEv.storeReleaseFalse (spinLockGuard_drop locked s).2.2 <
      List.indexOf DropEv.popOffEv (spinLockGuard_drop locked s).2.2 := by
  refine ⟨rfl, rfl, ?_, ?_, ?_⟩ <;> simp [spinLockGuard_drop]

/-- C6, failing input: `SpinLock::try_lock` on an uncontended lock with the
calling core at nesting depth 0 succeeds with a single compare-and-swap but
performs no interrupt-mask bookkeeping (the interrupt state is returned
unchanged, `noff` still 0), so the subsequent guard drop's `pop_off`
panics; the claim (and the spec) say `try_lock` performs the same
`push_off` accounting as `lock()`.  A failed attempt returns no guard and
changes nothing. -/
theorem spinLock_try_lock_no_push_off :
    (spinLock_try_lock false ⟨false, 0, false⟩).acquired = true ∧
    (spinLock_try_lock false ⟨false, 0, false⟩).locked = true ∧
    (spinLock_try_lock false ⟨false, 0, false⟩).intrState = ⟨false, 0, false⟩ ∧
    (enable_intr ⟨false, 0, false⟩).noff = 1 ∧
    (spinLockGuard_drop true
      (spinLock_try_lock false ⟨false, 0, false⟩).intrState).2.1 = none ∧
    (spinLock_try_lock true ⟨false, 0, false⟩).acquired = false ∧
    (spinLock_try_lock true ⟨false, 0, false⟩).locked = true ∧
    (spinLock_try_lock true ⟨false, 0, false⟩).intrState = ⟨false, 0, false⟩ := by
  decide

/-- The suspend-based `Mutex` from `mutex.rs`: the atomic flag `state` and
the FIFO wait list `wakers` (a `SpinLock<LinkedList<Waker>>`; every access
below goes through that internal lock, front = oldest).  Wake handles are
modelled by an arbitrary type `W`; the protected payload plays no role in
the claims. -/
structure MutexState (W : Type) where
  state : Bool
  wakers : List W
deriving DecidableEq, Repr

/-- Function `Mutex::try_lock` from `mutex.rs`:
```
if !self.state.fetch_or(true, Ordering::Acquire) {
    Some(MutexGuard { mutex: self })
} else {
    None
}
```
The fetch-or observes the old flag value and stores `true`; the claim
succeeds exactly when the observed value was `false`.  Returns whether a
guard was produced and the state after. -/
def mutex_try_lock {W : Type} (m : MutexState W) : Bool × MutexState W :=
  (!m.state, { m with state := true })

/-- Function `Mutex::register` from `mutex.rs`:
`self.wakers.lock().push_back(waker)` — appends the handle at the back of
the FIFO wait list, under the internal busy-wait lock. -/
def mutex_register {W : Type} (m : MutexState W) (w : W) : MutexState W :=
  { m with wakers := m.wakers ++ [w] }

/-- Observable events of `Mutex::unlock`, in execution order. -/
inductive UnlockEv (W : Type) where
  /-- `self.state.store(false, Ordering::Release)` -/
  | storeReleaseFalse : UnlockEv W
  /-- `self.wakers.lock().pop_front()` and its result -/
  | popFront (popped : Option W) : UnlockEv W
  /-- `waker.unwrap().wake()` -/
  | wakeEv (w : W) : UnlockEv W
deriving DecidableEq, Repr

/-- Function `Mutex::unlock` from `mutex.rs`, with its event trace:
```
self.state.store(false, Ordering::Release);
let waker = self.wakers.lock().pop_front();
if waker.is_some() {
    waker.unwrap().wake();
}
``` -/
def mutex_unlock_run {W : Type} (m : MutexState W) :
    MutexState W × List (UnlockEv W) :=
  let m1 : MutexState W := { m with state := false }
  let waker := m1.wakers.head?
  let m2 : MutexState W := { m1 with wakers := m1.wakers.tail }
  match waker with
  | some w =>
    (m2, [UnlockEv.storeReleaseFalse, UnlockEv.popFront (some w),
          UnlockEv.wakeEv w])
  | none => (m2, [UnlockEv.storeReleaseFalse, UnlockEv.popFront none])

/-- The handles woken during a trace of `Mutex::unlock` events. -/
def wokenOf {W : Type} : List (UnlockEv W) → List W
  | [] => []
  | UnlockEv.wakeEv w :: rest => w :: wokenOf rest
  | _ :: rest => wokenOf rest

/-- Function `Mutex::unlock` as a state transformer, paired with the handle
it wakes, if any (projection of `mutex_unlock_run`). -/
def mutex_unlock {W : Type} (m : MutexState W) : MutexState W × Option W :=
  ((mutex_unlock_run m).1, (wokenOf (mutex_unlock_run m).2).head?)

/-- Function `Drop for MutexGuard::drop` from `mutex.rs`:
`self.mutex.unlock()`. -/
def mutexGuard_drop {W : Type} (m : MutexState W) :
    MutexState W × List (UnlockEv W) :=
  mutex_unlock_run m

/-- Observable events of `MutexLockFuture::poll`, in execution order. -/
inductive PollEv (W : Type) where
  /-- `state.fetch_or(true, Ordering::Acquire)` inside `Mutex::try_lock`,
  with the flag value it observed -/
  | fetchOrAcquire (observed : Bool) : PollEv W
  /-- `self.mutex.register(waker)`: push the handle at the back of the
  wait list -/
  | registerEv (w : W) : PollEv W
  /-- `return Poll::Ready(lock)` -/
  | readyGuard : PollEv W
  /-- `Poll::Pending` -/
  | pendingRes : PollEv W
deriving DecidableEq, Repr

/-- Result of one poll of `MutexLockFuture`: whether the lock was acquired
(`Poll::Ready`), the mutex state after the poll, and the event trace. -/
structure PollOut (W : Type) where
  ready : Bool
  mutex : MutexState W
  evs : List (PollEv W)
deriving DecidableEq, Repr

/-- Function `MutexLockFuture::poll` from `mutex.rs`:
```
if let Some(lock) = self.mutex.try_lock() { return Poll::Ready(lock); }
let waker = cx.waker().clone();
self.mutex.register(waker);
if let Some(lock) = self.mutex.try_lock() { return Poll::Ready(lock); }
Poll::Pending
```
The flag is shared: another task may store to it between this poll's two
`fetch_or` accesses (that window is why the second claim attempt exists).
`mid = some v` models such an interfering store of `v` after the
registration; `mid = none` means no interference. -/
def mutexLockFuture_poll {W : Type} (m : MutexState W) (w : W)
    (mid : Option Bool) : PollOut W :=
  let r1 := mutex_try_lock m
  if r1.1 then
    ⟨true, r1.2, [PollEv.fetchOrAcquire m.state, PollEv.readyGuard]⟩
  else
    let m2 := mutex_register r1.2 w
    let m3 : MutexState W :=
      match mid with
      | some v => { m2 with state := v }
      | none => m2
    let r2 := mutex_try_lock m3
    if r2.1 then
      ⟨true, r2.2, [PollEv.fetchOrAcquire m.state, PollEv.registerEv w,
        PollEv.fetchOrAcquire m3.state, PollEv.readyGuard]⟩
    else
      ⟨false, r2.2, [PollEv.fetchOrAcquire m.state, PollEv.registerEv w,
        PollEv.fetchOrAcquire m3.state, PollEv.pendingRes]⟩

lemma poll_eq_ready_now {W : Type} (m : MutexState W) (w : W)
    (mid : Option Bool) (h : m.state = false) :
    mutexLockFuture_poll m w mid =
      ⟨true, { m with state := true },
        [PollEv.fetchOrAcquire false, PollEv.readyGuard]⟩ := by
  unfold mutexLockFuture_poll mutex_try_lock
  simp [h]

lemma poll_eq_ready_retry {W : Type} (m : MutexState W) (w : W)
    (mid : Option Bool) (h : m.state = true) (hm : mid.getD true = false) :
    mutexLockFuture_poll m w mid =
      ⟨true, ⟨true, m.wakers ++ [w]⟩,
        [PollEv.fetchOrAcquire true, PollEv.registerEv w,
         PollEv.fetchOrAcquire false, PollEv.readyGuard]⟩ := by
  rcases mid with _ | v
  · simp at hm
  · simp only [Option.getD_some] at hm
    unfold mutexLockFuture_poll mutex_try_lock mutex_register
    simp [h, hm]

lemma poll_eq_pending {W : Type} (m : MutexState W) (w : W)
    (mid : Option Bool) (h : m.state = true) (hm : mid.getD true = true) :
    mutexLockFuture_poll m w mid =
      ⟨false, ⟨true, m.wakers ++ [w]⟩,
        [PollEv.fetchOrAcquire true, PollEv.registerEv w,
         PollEv.fetchOrAcquire true, PollEv.pendingRes]⟩ := by
  rcases mid with _ | v
  · unfold mutexLockFuture_poll mutex_try_lock mutex_register
    simp [h]
  · simp only [Option.getD_some] at hm
    unfold mutexLockFuture_poll mutex_try_lock mutex_register
    simp [h, hm]

/-- C4: each poll of the acquisition future runs exactly the protocol
claim–register–reclaim.  If the first acquire-ordered fetch-or observes
unlocked, the guard is returned at once and nothing is registered.
Otherwise the task's handle is registered at the back of the wait list
before the flag is examined again; the one re-attempt then returns the
guard when it observes unlocked (the registered handle remains as a
spurious entry) and otherwise the poll reports pending.  `mid` is the flag
value an interfering task stored between registration and re-check. -/
theorem mutexLockFuture_poll_spec {W : Type} (m : MutexState W) (w : W)
    (mid : Option Bool) :
    (m.state = false →
      mutexLockFuture_poll m w mid =
        ⟨true, { m with state := true },
          [PollEv.fetchOrAcquire false, PollEv.readyGuard]⟩) ∧
    (m.state = true → mid.getD true = false →
      mutexLockFuture_poll m w mid =
        ⟨true, ⟨true, m.wakers ++ [w]⟩,
          [PollEv.fetchOrAcquire true, PollEv.registerEv w,
           PollEv.fetchOrAcquire false, PollEv.readyGuard]⟩) ∧
    (m.state = true → mid.getD true = true →
      mutexLockFuture_poll m w mid =
        ⟨false, ⟨true, m.wakers ++ [w]⟩,
          [PollEv.fetchOrAcquire true, PollEv.registerEv w,
           PollEv.fetchOrAcquire true, PollEv.pendingRes]⟩) :=
  ⟨poll_eq_ready_now m w mid, poll_eq_ready_retry m w mid,
    poll_eq_pending m w mid⟩

/-- Witness for C4: polling a held lock, with the holder releasing between
registration and re-check; the re-attempt claims the lock and the
registered handle stays behind as a spurious entry. -/
theorem mutexLockFuture_poll_spec_witness :
    (⟨true, []⟩ : MutexState ℕ).state = true ∧
    (some false).getD true = false ∧
    mutexLockFuture_poll (⟨true, []⟩ : MutexState ℕ) 0 (some false) =
      ⟨true, ⟨true, [0]⟩,
        [PollEv.fetchOrAcquire true, PollEv.registerEv 0,
         PollEv.fetchOrAcquire false, PollEv.readyGuard]⟩ :=
  ⟨rfl, rfl,
    (mutexLockFuture_poll_spec (⟨true, []⟩ : MutexState ℕ) 0
      (some false)).2.1 rfl rfl⟩

/-- C5: destruction of a `MutexGuard` (which calls `Mutex::unlock`) stores
`false` into the flag with release ordering, then pops exactly the oldest
wait-list handle, if any, and wakes it — at most one handle per release —
and every wake event comes after the release store in the trace. -/
theorem mutexGuard_drop_spec {W : Type} (m : MutexState W) :
    (mutexGuard_drop m).1.state = false ∧
    (mutexGuard_drop m).1.wakers = m.wakers.tail ∧
    wokenOf (mutexGuard_drop m).2 = m.wakers.head?.toList ∧
    (wokenOf (mutexGuard_drop m).2).length ≤ 1 ∧
    (∀ j v, (mutexGuard_drop m).2.get? j = some (UnlockEv.wakeEv v) →
      ∃ i, i < j ∧
        (mutexGuard_drop m).2.get? i = some (UnlockEv.storeReleaseFalse)) := by
  cases hw : m.wakers with
  | nil =>
    refine ⟨?_, ?_, ?_, ?_, ?_⟩
    · simp [mutexGuard_drop, mutex_unlock_run, hw]
    · simp [mutexGuard_drop, mutex_unlock_run, hw]
    · simp [mutexGuard_drop, mutex_unlock_run, hw, wokenOf]
    · simp [mutexGuard_drop, mutex_unlock_run, hw, wokenOf]
    · intro j v hj
      simp only [mutexGuard_drop, mutex_unlock_run, hw] at hj
      match j with
      | 0 => simp at hj
      | 1 => simp at hj
      | Nat.succ (Nat.succ n) => simp at hj
  | cons a rest =>
    refine ⟨?_, ?_, ?_, ?_, ?_⟩
    · simp [mutexGuard_drop, mutex_unlock_run, hw]
    · simp [mutexGuard_drop, mutex_unlock_run, hw]
    · simp [mutexGuard_drop, mutex_unlock_run, hw, wokenOf]
    · simp [mutexGuard_drop, mutex_unlock_run, hw, wokenOf]
    · intro j v hj
      simp only [mutexGuard_drop, mutex_unlock_run, hw] at hj
      match j with
      | 0 => simp at hj
      | 1 => simp at hj
      | 2 =>
        refine ⟨0, by omega, ?_⟩
        simp [mutexGuard_drop, mutex_unlock_run, hw]
      | Nat.succ (Nat.succ (Nat.succ n)) => simp at hj

/-- Witness for C5 at a lock with two queued handles: the drop releases the
flag, wakes only the oldest handle 0, and the wake follows the store. -/
theorem mutexGuard_drop_spec_witness :
    (mutexGuard_drop (⟨true, [0, 1]⟩ : MutexState ℕ)).1.state = false ∧
    (mutexGuard_drop (⟨true, [0, 1]⟩ : MutexState ℕ)).1.wakers = [1] ∧
    wokenOf (mutexGuard_drop (⟨true, [0, 1]⟩ : MutexState ℕ)).2 = [0] ∧
    (mutexGuard_drop (⟨true, [0, 1]⟩ : MutexState ℕ)).2.get? 2 =
      some (UnlockEv.wakeEv 0) ∧
    ∃ i, i < 2 ∧ (mutexGuard_drop (⟨true, [0, 1]⟩ : MutexState ℕ)).2.get? i =
      some (UnlockEv.storeReleaseFalse) := by
  obtain ⟨h1, h2, h3, _, h5⟩ :=
    mutexGuard_drop_spec (⟨true, [0, 1]⟩ : MutexState ℕ)
  exact ⟨h1, h2, by rw [h3]; rfl, rfl, h5 2 0 rfl⟩

/-- C10: `Mutex::unlock` (a public method, `pub fn unlock(&self)`, callable
with no guard in hand) is unconditional: for every mutex state — locked or
already unlocked — it stores `false` into the flag, pops the front (oldest)
wait-list entry if one exists and wakes exactly that handle, never more
than one. -/
theorem mutex_unlock_unconditional {W : Type} (m : MutexState W) :
    (mutex_unlock m).1.state = false ∧
    (mutex_unlock m).2 = m.wakers.head? ∧
    (mutex_unlock m).1.wakers = m.wakers.tail ∧
    (wokenOf (mutex_unlock_run m).2).length ≤ 1 := by
  cases hw : m.wakers with
  | nil =>
    exact ⟨by simp [mutex_unlock, mutex_unlock_run, hw],
      by simp [mutex_unlock, mutex_unlock_run, hw, wokenOf],
      by simp [mutex_unlock, mutex_unlock_run, hw],
      by simp [mutex_unlock_run, hw, wokenOf]⟩
  | cons a rest =>
    exact ⟨by simp [mutex_unlock, mutex_unlock_run, hw],
      by simp [mutex_unlock, mutex_unlock_run, hw, wokenOf],
      by simp [mutex_unlock, mutex_unlock_run, hw],
      by simp [mutex_unlock_run, hw, wokenOf]⟩

/-- Value semantics of abandoning a `MutexLockFuture`: the future holds
only a reference to its mutex (`struct MutexLockFuture { mutex: &Mutex }`)
and `mutex.rs` implements no `Drop` for it, so dropping the future leaves
the mutex — flag and wait list — unchanged.  This definition models that
absence of a `Drop` implementation. -/
def mutexLockFuture_drop {W : Type} (m : MutexState W) : MutexState W := m

/-- C8 counterexample: a poll of a held lock registers handle 0 and
reports pending; abandoning the future then removes nothing — handle 0 is
still on the wait list, so a wake handle for a no-longer-existing
acquisition does remain, contrary to the claim. -/
theorem futureDrop_registration_remains :
    (mutexLockFuture_poll (⟨true, []⟩ : MutexState ℕ) 0 none).ready = false ∧
    (mutexLockFuture_poll (⟨true, []⟩ : MutexState ℕ) 0 none).mutex.wakers
      = [0] ∧
    mutexLockFuture_drop
        (mutexLockFuture_poll (⟨true, []⟩ : MutexState ℕ) 0 none).mutex =
      (mutexLockFuture_poll (⟨true, []⟩ : MutexState ℕ) 0 none).mutex ∧
    0 ∈ (mutexLockFuture_drop
      (mutexLockFuture_poll (⟨true, []⟩ : MutexState ℕ) 0 none).mutex).wakers := by
  decide

/-- C8 amended: abandoning a pending acquisition future performs no
cleanup — `MutexLockFuture` has no `Drop` implementation, so the handle it
registered stays on the wait list unchanged (a spurious entry that a later
`unlock` pops and wakes). -/
theorem futureDrop_keeps_registration {W : Type} (m : MutexState W) (w : W)
    (mid : Option Bool) (h1 : m.state = true) (h2 : mid.getD true = true) :
    (mutexLockFuture_drop (mutexLockFuture_poll m w mid).mutex).wakers =
      m.wakers ++ [w] := by
  rw [poll_eq_pending m w mid h1 h2]
  rfl

/-- Witness for the amended C8: the pending future from the C8
counterexample keeps its registration after being dropped. -/
theorem futureDrop_keeps_registration_witness :
    (⟨true, []⟩ : MutexState ℕ).state = true ∧
    (none : Option Bool).getD true = true ∧
    (mutexLockFuture_drop
        (mutexLockFuture_poll (⟨true, []⟩ : MutexState ℕ) 5 none).mutex).wakers =
      ([] : List ℕ) ++ [5] :=
  ⟨rfl, rfl, futureDrop_keeps_registration (⟨true, []⟩ : MutexState ℕ) 5 none
    rfl rfl⟩

end KernelSync
